import Mathlib

/-!
Verification development for the tmux-mcp server (sources: `src/index.ts`,
`src/git.ts`; the helper module `tmux.ts` is exercised only through its
interface here and its internals are modelled from the design document where
noted).  Text is embedded as `List Char` so that marker scanning and template
rendering are plain executable list functions.
-/

namespace TmuxMcp

abbrev Str := List Char

/-- Substring scan: index of the first occurrence of `pat` in the scanned
list, scanning left to right, as `String.indexOf` does. -/
def findAt (pat : Str) : Str → Option Nat
  | [] => if pat.isEmpty then some 0 else none
  | c :: rest =>
    if pat.isPrefixOf (c :: rest) then some 0
    else (findAt pat rest).map (· + 1)

/-- `pat` occurs somewhere in `l` (Bool form of `indexOf !== -1`). -/
def occurs (pat l : Str) : Bool := (findAt pat l).isSome

def wsChar (c : Char) : Bool := c.isWhitespace

/-- `true` when the list is empty or its first character is not whitespace. -/
def headOkW : Str → Bool
  | [] => true
  | c :: _ => !(wsChar c)

/-- Whitespace trim at both ends, as `String.prototype.trim`. -/
def trimChars (l : Str) : Str :=
  ((l.dropWhile wsChar).reverse.dropWhile wsChar).reverse

/- ### Basic scanning lemmas -/

theorem preOf_append (a b : Str) : a.isPrefixOf (a ++ b) = true := by
  induction a with
  | nil => simp [List.isPrefixOf]
  | cons c t ih => simp [List.isPrefixOf, ih]

theorem preOf_exists {pat l : Str} (h : pat.isPrefixOf l = true) :
    ∃ t, l = pat ++ t := by
  induction pat generalizing l with
  | nil => exact ⟨l, rfl⟩
  | cons p ps ih =>
    cases l with
    | nil => simp [List.isPrefixOf] at h
    | cons c t =>
      simp only [List.isPrefixOf, Bool.and_eq_true, beq_iff_eq] at h
      obtain ⟨rfl, h2⟩ := h
      obtain ⟨u, hu⟩ := ih h2
      exact ⟨u, by simp [hu]⟩

theorem preOf_of_long {pat a z : Str} (h : pat.isPrefixOf (a ++ z) = true)
    (hl : pat.length ≤ a.length) : pat.isPrefixOf a = true := by
  induction pat generalizing a with
  | nil => simp [List.isPrefixOf]
  | cons p ps ih =>
    cases a with
    | nil => simp at hl
    | cons x xs =>
      simp only [List.cons_append, List.isPrefixOf, Bool.and_eq_true] at h ⊢
      exact ⟨h.1, ih h.2 (by simpa using hl)⟩

theorem mem_of_pre_split {pat a b : Str} {c : Char}
    (h : pat.isPrefixOf (a ++ c :: b) = true) (hl : a.length < pat.length) :
    c ∈ pat := by
  induction a generalizing pat with
  | nil =>
    cases pat with
    | nil => simp at hl
    | cons p ps =>
      simp only [List.nil_append, List.isPrefixOf, Bool.and_eq_true,
        beq_iff_eq] at h
      exact h.1 ▸ List.mem_cons_self _ _
  | cons x xs ih =>
    cases pat with
    | nil => simp at hl
    | cons p ps =>
      simp only [List.cons_append, List.isPrefixOf, Bool.and_eq_true] at h
      exact List.mem_cons_of_mem _ (ih h.2 (by simpa using hl))

theorem findAt_self_append (pat xs : Str) : findAt pat (pat ++ xs) = some 0 := by
  cases pat with
  | nil =>
    cases xs with
    | nil => rfl
    | cons c t => simp [findAt, List.isPrefixOf]
  | cons p ps =>
    simp [findAt, preOf_append (p :: ps) xs]

theorem findAt_eq_some {pat l : Str} {n : Nat}
    (h1 : pat.isPrefixOf (l.drop n) = true)
    (h2 : ∀ i, i < n → pat.isPrefixOf (l.drop i) = false) :
    findAt pat l = some n := by
  induction l generalizing n with
  | nil =>
    cases n with
    | zero =>
      simp only [List.drop] at h1
      cases pat with
      | nil => rfl
      | cons p ps => simp [List.isPrefixOf] at h1
    | succ m =>
      have := h2 0 (Nat.succ_pos m)
      simp only [List.drop] at h1 this
      rw [h1] at this
      exact absurd this (by simp)
  | cons c rest ih =>
    cases n with
    | zero =>
      simp only [List.drop] at h1
      simp [findAt, h1]
    | succ m =>
      have h0 : pat.isPrefixOf (c :: rest) = false := by
        simpa using h2 0 (Nat.succ_pos m)
      have hrec : findAt pat rest = some m := by
        apply ih
        · simpa using h1
        · intro i hi
          simpa using h2 (i + 1) (Nat.succ_lt_succ hi)
      simp [findAt, h0, hrec]

theorem occurs_of_preOf_drop {pat l : Str} {j : Nat}
    (h : pat.isPrefixOf (l.drop j) = true) : occurs pat l = true := by
  induction l generalizing j with
  | nil =>
    simp only [List.drop_nil] at h
    cases pat with
    | nil => rfl
    | cons p ps => simp [List.isPrefixOf] at h
  | cons c rest ih =>
    cases j with
    | zero =>
      simp only [List.drop] at h
      simp [occurs, findAt, h]
    | succ m =>
      have hmid : pat.isPrefixOf (rest.drop m) = true := by simpa using h
      have hr := ih hmid
      simp only [occurs, findAt]
      by_cases hp : pat.isPrefixOf (c :: rest) = true
      · simp [hp]
      · simp only [occurs] at hr
        simp [hp, Option.isSome_map, hr]

theorem occurs_append_left {pat l : Str} (x : Str)
    (h : occurs pat l = true) : occurs pat (x ++ l) = true := by
  induction x with
  | nil => simpa using h
  | cons c t ih =>
    simp only [occurs, findAt, List.cons_append]
    by_cases hp : pat.isPrefixOf (c :: (t ++ l)) = true
    · simp [hp]
    · simp only [occurs] at ih
      simp [hp, Option.isSome_map, ih]

theorem occurs_self_append (pat b : Str) : occurs pat (pat ++ b) = true := by
  simp [occurs, findAt_self_append]

theorem occurs_self (pat : Str) : occurs pat pat = true := by
  have := occurs_self_append pat []
  simpa using this

theorem preOf_not_of_head {pat z : Str} {s : Char}
    (hmem : s ∉ pat) (hne : pat ≠ []) : pat.isPrefixOf (s :: z) = false := by
  cases pat with
  | nil => exact absurd rfl hne
  | cons p ps =>
    have hps : p ≠ s := fun h => hmem (h ▸ List.mem_cons_self _ _)
    simp [List.isPrefixOf, hps]

theorem dropWhile_of_headOkW {l : Str} (h : headOkW l = true) :
    l.dropWhile wsChar = l := by
  cases l with
  | nil => rfl
  | cons c t =>
    simp only [headOkW, Bool.not_eq_true'] at h
    simp [List.dropWhile_cons, h]

theorem trimChars_pad {out : Str} {sep : Char} (hsep : wsChar sep = true)
    (hh : headOkW out = true) (hl : headOkW out.reverse = true) :
    trimChars (sep :: (out ++ [sep])) = out := by
  have step1 : (sep :: (out ++ [sep])).dropWhile wsChar
      = (out ++ [sep]).dropWhile wsChar := by
    simp [List.dropWhile_cons, hsep]
  cases out with
  | nil => simp [trimChars, step1, List.dropWhile_cons, hsep]
  | cons a t =>
    have h1 : ((a :: t) ++ [sep]).dropWhile wsChar = (a :: t) ++ [sep] := by
      have : headOkW ((a :: t) ++ [sep]) = true := by simpa [headOkW] using hh
      exact dropWhile_of_headOkW this
    have h2 : ((a :: t) ++ [sep]).reverse = sep :: (a :: t).reverse := by
      simp
    have h3 : (sep :: (a :: t).reverse).dropWhile wsChar = (a :: t).reverse := by
      rw [List.dropWhile_cons]
      simp only [hsep, if_true]
      exact dropWhile_of_headOkW hl
    rw [trimChars, step1, h1, h2, h3, List.reverse_reverse]

/- ### Shell adapter and marker protocol

`tmux.ts` is not part of the audited sources; the marker protocol below is
modelled from the design document (start/end tokens derived from the command
id, statements joined and submitted with a newline, parse recovering the text
strictly between the markers and the numeric exit code from the end token). -/

inductive Shell
  | bash
  | zsh
  | fish
deriving DecidableEq

/-- Modelled from the spec: the shell-specific idiom for the most recent
command's exit status (`tmux.ts` is absent from the sources). -/
def exitIdiom : Shell → Str
  | Shell.bash => "$?".toList
  | Shell.zsh => "$?".toList
  | Shell.fish => "$status".toList

/-- Start marker token derived from the command id. -/
def startTag (id : Str) : Str := "<<START:".toList ++ id ++ ">>".toList

/-- Leading portion of the end marker token (up to the exit-code slot). -/
def endTagPre (id : Str) : Str := "<<END:".toList ++ id ++ ":".toList

/-- End marker carrying a concrete exit code. -/
def endTagWith (id : Str) (code : Nat) : Str :=
  endTagPre id ++ (toString code).toList ++ ">>".toList

/-- Modelled from the spec: `buildWrapped` prints the start marker, runs the
caller's command, then prints the end marker holding the shell's exit-status
idiom, joined with the statement separator and submitted with a newline
(`tmux.ts` is absent from the sources). -/
def buildWrapped (id cmd : Str) (shell : Shell) : Str :=
  "echo ".toList ++ startTag id ++ "; ".toList ++ cmd ++ "; echo ".toList
    ++ endTagPre id ++ exitIdiom shell ++ ">>".toList ++ "\n".toList

def digitsVal (l : Str) : Nat := l.foldl (fun n c => n * 10 + (c.toNat - 48)) 0

/-- Reads the decimal number at the head of the list, if any. -/
def readNat (l : Str) : Option Nat :=
  let ds := l.takeWhile Char.isDigit
  if ds.isEmpty then none else some (digitsVal ds)

structure ParseOut where
  found : Bool
  output : Option Str
  exitCode : Option Nat
deriving DecidableEq

/-- Modelled from the spec: locate the start marker, then the end marker for
the same command id after it; the output is the text strictly between them,
trimmed, and the exit code is the numeric token inside the end marker
(`tmux.ts` is absent from the sources). -/
def parseCapture (captured id : Str) : ParseOut :=
  match findAt (startTag id) captured with
  | none => ⟨false, none, none⟩
  | some i =>
    let afterStart := captured.drop (i + (startTag id).length)
    match findAt (endTagPre id) afterStart with
    | none => ⟨false, none, none⟩
    | some j =>
      match readNat (afterStart.drop (j + (endTagPre id).length)) with
      | none => ⟨false, none, none⟩
      | some code => ⟨true, some (trimChars (afterStart.take j)), some code⟩

/- ### Command registry and lifecycle -/

inductive CmdStatus
  | pending
  | completed
  | error
deriving DecidableEq

/-- Registry record for one executed command (data model of §3; field set as
used by the `index.ts` handlers: `status`, `exitCode`, `command`, `result`,
`startTime`).  Timestamps are epoch milliseconds. -/
structure Command where
  id : Str
  paneId : Str
  command : Str
  startTime : Nat
  status : CmdStatus
  exitCode : Option Nat
  result : Str
  rawMode : Bool
deriving DecidableEq

abbrev Registry := List Command

def lookupCmd (reg : Registry) (i : Str) : Option Command :=
  reg.find? (fun c => c.id == i)

/-- Exit code 0 is the success sentinel; anything else is an error. -/
def exitToStatus (code : Nat) : CmdStatus :=
  if code = 0 then CmdStatus.completed else CmdStatus.error

/-- Modelled from the spec: `checkStatus` — look the command up (absent ⇒
not-found), return terminal and raw-mode entries unchanged, otherwise capture
the pane and run the marker parse, transitioning `pending → completed/error`
on a found end marker (`tmux.ts` is absent from the sources).  `cap` is the
Pane Capture Port: pane id ↦ currently captured text. -/
def checkCommandStatus (cap : Str → Str) (reg : Registry) (i : Str) :
    Option Command × Registry :=
  match lookupCmd reg i with
  | none => (none, reg)
  | some cmd =>
    if cmd.status = CmdStatus.pending then
      if cmd.rawMode then (some cmd, reg)
      else
        match parseCapture (cap cmd.paneId) i with
        | ⟨true, some out, some code⟩ =>
          let upd : Command :=
            { cmd with
              status := exitToStatus code
              exitCode := some code
              result := out }
          (some upd, reg.map (fun c => if c.id == i then upd else c))
        | _ => (some cmd, reg)
    else (some cmd, reg)

/-- Modelled from the spec: the age sweep — remove every entry whose
`startTime` lies more than `maxAgeMinutes` before `now`, irrespective of
status (`tmux.ts` is absent from the sources). -/
def cleanupOldCommands (reg : Registry) (now maxAgeMinutes : Nat) : Registry :=
  reg.filter (fun c => decide (now - c.startTime ≤ maxAgeMinutes * 60 * 1000))

/- ### Rendering (from the `index.ts` handlers) -/

def statusText : CmdStatus → Str
  | CmdStatus.pending => "pending".toList
  | CmdStatus.completed => "completed".toList
  | CmdStatus.error => "error".toList

/-- Template interpolation of a possibly-absent exit code (JS prints the
literal text `undefined` for an absent field). -/
def exitCodeText : Option Nat → Str
  | some n => (toString n).toList
  | none => "undefined".toList

/-- `Date.prototype.toISOString`, modelled as an injective rendering of the
epoch-millisecond timestamp. -/
def isoTime (t : Nat) : Str := (toString t).toList

/-- Shared result rendering of the `get-command-result` tool and the
`tmux://command/.../result` resource read handler (`index.ts`, identical
template text in both). -/
def renderCommand (c : Command) : Str :=
  if c.status = CmdStatus.pending then
    if c.result ≠ [] then
      "Status: ".toList ++ statusText c.status ++ "\nCommand: ".toList
        ++ c.command ++ "\n\n--- Message ---\n".toList ++ c.result
    else
      "Command still executing...\nStarted: ".toList ++ isoTime c.startTime
        ++ "\nCommand: ".toList ++ c.command
  else
    "Status: ".toList ++ statusText c.status ++ "\nExit code: ".toList
      ++ exitCodeText c.exitCode ++ "\nCommand: ".toList ++ c.command
      ++ "\n\n--- Output ---\n".toList ++ c.result

structure ToolResponse where
  text : Str
  isError : Bool
deriving DecidableEq

/-- `get-command-result` tool handler (`index.ts`): live status check via
`checkCommandStatus`, then either the not-found text or the rendering of the
(possibly freshly transitioned) command. -/
def getCommandResultTool (cap : Str → Str) (reg : Registry) (commandId : Str) :
    ToolResponse × Registry :=
  match checkCommandStatus cap reg commandId with
  | (none, reg2) =>
    (⟨"Command not found: ".toList ++ commandId, true⟩, reg2)
  | (some c, reg2) => (⟨renderCommand c, false⟩, reg2)

/-- `tmux://command/{commandId}/result` resource read handler (`index.ts`):
same live check and rendering, returned as plain resource contents. -/
def commandResultResource (cap : Str → Str) (reg : Registry)
    (commandId : Str) : Str × Registry :=
  match checkCommandStatus cap reg commandId with
  | (none, reg2) => ("Command not found: ".toList ++ commandId, reg2)
  | (some c, reg2) => (renderCommand c, reg2)

structure ResourceEntry where
  name : Str
  uri : Str
  description : Str
deriving DecidableEq

/-- Listing descriptor of one registry entry (`index.ts` list handler:
command text truncated to 30 characters, result URI, status line). -/
def commandResourceEntry (c : Command) : ResourceEntry :=
  ⟨"Command: ".toList ++ c.command.take 30
      ++ (if 30 < c.command.length then "...".toList else []),
    "tmux://command/".toList ++ c.id ++ "/result".toList,
    "Execution status: ".toList ++ statusText c.status⟩

/-- `tmux://command/{commandId}/result` list handler (`index.ts`): sweep
entries older than 10 minutes, then describe every remaining command. -/
def commandResultList (reg : Registry) (now : Nat) :
    List ResourceEntry × Registry :=
  let reg2 := cleanupOldCommands reg now 10
  (reg2.map commandResourceEntry, reg2)

/- ### execute-command tool handler (`index.ts`) -/

inductive ExecOutcome
  | raw (text : Str)
  | trackable (text : Str)
deriving DecidableEq

/-- What the handler passed to `tmux.executeCommand` (pane, command text,
effective raw mode, noEnter) plus the response it returned. -/
structure ExecReply where
  dispatchedPane : Str
  dispatchedCommand : Str
  dispatchedRawMode : Bool
  dispatchedNoEnter : Bool
  outcome : ExecOutcome
deriving DecidableEq

/-- `execute-command` tool handler (`index.ts`): `noEnter` forces raw mode;
raw dispatches answer with the tracking-disabled notice, trackable dispatches
answer with the result-resource subscription guidance.  `commandId` is the
identifier `tmux.executeCommand` returned for this dispatch. -/
def executeCommandTool (paneId command commandId : Str)
    (rawMode noEnter : Bool) : ExecReply :=
  let effectiveRawMode := noEnter || rawMode
  if effectiveRawMode then
    let modeText :=
      if noEnter then "Keys sent without Enter".toList
      else "Interactive command started (rawMode)".toList
    ⟨paneId, command, effectiveRawMode, noEnter,
      ExecOutcome.raw (modeText
        ++ ".\n\nStatus tracking is disabled.\nUse \x27capture-pane\x27 with paneId \x27".toList
        ++ paneId
        ++ "\x27 to verify the command outcome.\n\nCommand ID: ".toList
        ++ commandId)⟩
  else
    ⟨paneId, command, effectiveRawMode, noEnter,
      ExecOutcome.trackable
        ("Command execution started.\n\nTo get results, subscribe to and read resource: ".toList
          ++ "tmux://command/".toList ++ commandId ++ "/result".toList
          ++ "\n\nStatus will change from \x27pending\x27 to \x27completed\x27 or \x27error\x27 when finished.".toList)⟩

/- ### Pane content resource (`index.ts`) -/

/-- A URI template parameter may arrive as a single value or an array. -/
inductive UriParam
  | one (s : Str)
  | many (l : List Str)

/-- `Array.isArray(paneId) ? paneId[0] : paneId` (`index.ts`). -/
def paneIdOf : UriParam → Str
  | UriParam.one s => s
  | UriParam.many l => l.headD []

/-- `tmux://pane/{paneId}` resource read handler (`index.ts`): always a
200-line capture with colors disabled, `capture` being
`tmux.capturePaneContent` (pane id, line count, include colors). -/
def paneContentResource (capture : Str → Nat → Bool → Str)
    (paneId : UriParam) : Str :=
  let content := capture (paneIdOf paneId) 200 false
  if content = [] then "No content captured".toList else content

/- ### Environment export helpers (`index.ts`) -/

/-- The regex `^[A-Za-z_][A-Za-z0-9_]*$` of `validateEnvKey` (`index.ts`). -/
def validEnvKey (l : Str) : Bool :=
  match l with
  | [] => false
  | c :: rest =>
    (c.isAlpha || c == '_') && rest.all (fun d => d.isAlphanum || d == '_')

/-- `value.replace(/(["\\])/g, "\\$1")` (`index.ts`): prefix every double
quote and backslash with a backslash. -/
def escapeDq (l : Str) : Str :=
  l.foldr (fun c acc => if c == '"' || c == '\\' then '\\' :: c :: acc else c :: acc) []

/-- `buildExportCommand` (`index.ts`): validate the key, then emit the
quoted export line; an invalid key raises, modelled as `Except.error`. -/
def buildExportCommand (key value : Str) : Except Str Str :=
  if validEnvKey key then
    Except.ok ("export ".toList ++ key ++ "=\"".toList ++ escapeDq value ++ "\"".toList)
  else
    Except.error ("Invalid environment variable name: ".toList ++ key)

/-- `buildCdCommand` (`index.ts`). -/
def buildCdCommand (path : Str) : Str :=
  "cd \"".toList ++ escapeDq path ++ "\"".toList

/-- The environment loop of the `launch-agent-pane` handler (`index.ts`):
exports are built and sent in order; the first invalid key raises, which
aborts the loop before that key's export is sent.  Returns the export lines
actually sent and the error, if one was raised. -/
def sendEnvExports : List (Str × Str) → List Str × Option Str
  | [] => ([], none)
  | (k, v) :: rest =>
    match buildExportCommand k v with
    | Except.error e => ([], some e)
    | Except.ok cmd =>
      let r := sendEnvExports rest
      (cmd :: r.1, r.2)

/- ### Git worktrees (`src/git.ts`)

Paths are embedded as `Str` like all other text here.  `node:path`'s
`normalize` is an external library routine whose segment collapsing none of
the verified properties depend on; it is modelled as the identity on the
already-normal paths exchanged here.  `resolve` is modelled as the usual
root-relative join. -/

/-- `path.isAbsolute`. -/
def isAbsolutePath : Str → Bool
  | '/' :: _ => true
  | _ => false

/-- `path.normalize`, modelled as the identity (see section note). -/
def normalizePath (p : Str) : Str := p

/-- `path.resolve(root, p)` for an already-absolute `root`. -/
def resolvePath (root p : Str) : Str :=
  if isAbsolutePath p then p else root ++ '/' :: p

structure WorktreeInfo where
  path : Str
  head : Option Str := none
  branch : Option Str := none
  bare : Bool := false
  detached : Bool := false
  locked : Option Str := none
  prunable : Option Str := none
deriving DecidableEq

structure EnsureWorktreeOptions where
  repoPath : Str
  branchName : Str
  worktreePath : Option Str := none
  baseRef : Option Str := none
  createBranch : Bool := false
  force : Bool := false
deriving DecidableEq

structure EnsureWorktreeResult where
  repoPath : Str
  worktreePath : Str
  branch : Str
  created : Bool
  existingWorktree : Option WorktreeInfo := none
deriving DecidableEq

/-- The repository as `ensureWorktree` observes it: the resolved toplevel
(`git rev-parse --show-toplevel`) and the worktree listing
(`git worktree list --porcelain`, paths already normalized as `listWorktrees`
returns them). -/
structure GitRepoState where
  repoRoot : Str
  worktrees : List WorktreeInfo
deriving DecidableEq

/-- The candidate path of `ensureWorktree` (`git.ts`): an explicit
`worktreePath` resolved against the repo root, else `../{branchName}`
relative to the repo root. -/
def candidateWorktreePath (repoRoot : Str) (o : EnsureWorktreeOptions) :
    Str :=
  match o.worktreePath with
  | some p =>
    if isAbsolutePath p then normalizePath p
    else normalizePath (resolvePath repoRoot p)
  | none => normalizePath (resolvePath repoRoot ("../".toList ++ o.branchName))

/-- Effect of a successful `git worktree add` on the subsequent porcelain
listing: the new worktree appears at the candidate path, checked out on the
requested branch. -/
def applyWorktreeAdd (st : GitRepoState) (path branch : Str) :
    GitRepoState :=
  { st with worktrees := st.worktrees ++ [{ path := path, branch := some branch }] }

deriving instance DecidableEq for Except

/-- Outcome of one `ensureWorktree` call: the thrown-or-returned value, the
repository state afterwards, and whether `git worktree add` was executed. -/
structure EnsureStep where
  outcome : Except Str EnsureWorktreeResult
  state : GitRepoState
  ranWorktreeAdd : Bool
deriving DecidableEq

/-- `ensureWorktree` (`git.ts`): validate `branchName` and `baseRef`, reuse
an existing worktree found at the candidate path, refuse a branch already
checked out elsewhere unless forced, otherwise run `git worktree add`. -/
def ensureWorktree (st : GitRepoState) (o : EnsureWorktreeOptions) :
    EnsureStep :=
  if trimChars o.branchName = [] then
    ⟨Except.error ("branchName is required".toList), st, false⟩
  else if !o.createBranch && o.baseRef.isSome then
    ⟨Except.error ("baseRef can only be used when createBranch is true".toList),
      st, false⟩
  else
    let repoRoot := st.repoRoot
    let candidate := candidateWorktreePath repoRoot o
    match st.worktrees.find? (fun e => normalizePath e.path == candidate) with
    | some e =>
      ⟨Except.ok
          { repoPath := repoRoot
            worktreePath := candidate
            branch := e.branch.getD o.branchName
            created := false
            existingWorktree := some e },
        st, false⟩
    | none =>
      let added : EnsureStep :=
        ⟨Except.ok
            { repoPath := repoRoot
              worktreePath := candidate
              branch := o.branchName
              created := true },
          applyWorktreeAdd st candidate o.branchName, true⟩
      match st.worktrees.find? (fun e => e.branch == some o.branchName) with
      | some b =>
        if normalizePath b.path != candidate && !o.force then
          ⟨Except.error ("Branch ".toList ++ o.branchName
              ++ " is already checked out at ".toList ++ b.path
              ++ ". Use force=true to reuse the branch or choose a different branch name.".toList),
            st, false⟩
        else added
      | none => added

/- ### Round-trip machinery for the marker protocol -/

theorem endTagPre_cons (id : Str) :
    endTagPre id = '<' :: ("<END:".toList ++ id ++ ":".toList) := rfl

theorem endTagPre_ne_nil (id : Str) : endTagPre id ≠ [] := by
  rw [endTagPre_cons]
  exact List.cons_ne_nil _ _

theorem parseCapture_eq {captured id : Str} {i j code : Nat}
    (hA : findAt (startTag id) captured = some i)
    (hB : findAt (endTagPre id)
        (captured.drop (i + (startTag id).length)) = some j)
    (hC : readNat ((captured.drop (i + (startTag id).length)).drop
        (j + (endTagPre id).length)) = some code) :
    parseCapture captured id =
      ⟨true,
        some (trimChars ((captured.drop (i + (startTag id).length)).take j)),
        some code⟩ := by
  simp only [parseCapture, hA, hB, hC]

theorem roundTripRest {id out : Str} {sep : Char} {tail : Str}
    (hsepTag : sep ∉ endTagPre id)
    (hout : occurs (endTagPre id) out = false) :
    findAt (endTagPre id)
        (sep :: (out ++ sep :: (endTagPre id ++ tail)))
      = some (out.length + 2) := by
  apply findAt_eq_some
  · have hdrop : (sep :: (out ++ sep :: (endTagPre id ++ tail))).drop
        (out.length + 2) = endTagPre id ++ tail := by
      rw [show out.length + 2 = out.length + 1 + 1 from rfl,
        List.drop_succ_cons, List.drop_append_eq_append_drop,
        List.drop_eq_nil_of_le (Nat.le_succ _),
        show out.length + 1 - out.length = 1 by omega]
      simp
    rw [hdrop]
    exact preOf_append _ _
  · intro i hi
    cases i with
    | zero =>
      exact preOf_not_of_head hsepTag (endTagPre_ne_nil id)
    | succ j =>
      have hj : j ≤ out.length := by omega
      have hdrop : (sep :: (out ++ sep :: (endTagPre id ++ tail))).drop
          (j + 1) = out.drop j ++ sep :: (endTagPre id ++ tail) := by
        rw [List.drop_succ_cons, List.drop_append_eq_append_drop,
          Nat.sub_eq_zero_of_le hj, List.drop_zero]
      rw [hdrop]
      cases hx : (endTagPre id).isPrefixOf
          (out.drop j ++ sep :: (endTagPre id ++ tail)) with
      | false => rfl
      | true =>
        exfalso
        by_cases hle : (endTagPre id).length ≤ (out.drop j).length
        · have hpre := preOf_of_long hx hle
          have := occurs_of_preOf_drop hpre
          rw [hout] at this
          exact absurd this (by simp)
        · exact hsepTag (mem_of_pre_split hx (Nat.lt_of_not_le hle))

/- ### Claim theorems -/

/-- C1: wrapping a command with `buildWrapped` embeds both marker tokens, and
parsing a captured transcript made of the start marker, the command's real
output and the end marker carrying exit code 0 recovers `found`, exit code 0
and exactly the original output (no marker text leaks into the result); exit
code 0 maps to the `completed` status. -/
theorem execute_marker_round_trip (shell : Shell) (id cmd out : Str)
    (sep : Char)
    (hsep : wsChar sep = true)
    (hsepTag : sep ∉ endTagPre id)
    (hout : occurs (endTagPre id) out = false)
    (hhead : headOkW out = true)
    (hlast : headOkW out.reverse = true) :
    occurs (startTag id) (buildWrapped id cmd shell) = true ∧
    occurs (endTagPre id) (buildWrapped id cmd shell) = true ∧
    parseCapture (startTag id ++ sep :: (out ++ sep :: endTagWith id 0)) id
      = ⟨true, some out, some 0⟩ ∧
    exitToStatus 0 = CmdStatus.completed := by
  refine ⟨?_, ?_, ?_, rfl⟩
  · unfold buildWrapped
    simp only [List.append_assoc]
    exact occurs_append_left _ (occurs_self_append _ _)
  · unfold buildWrapped
    simp only [List.append_assoc]
    exact occurs_append_left _ (occurs_append_left _ (occurs_append_left _
      (occurs_append_left _ (occurs_append_left _ (occurs_self_append _ _)))))
  · have hA : findAt (startTag id)
        (startTag id ++ sep :: (out ++ sep :: endTagWith id 0)) = some 0 :=
      findAt_self_append _ _
    have hdropS : (startTag id ++ sep :: (out ++ sep :: endTagWith id 0)).drop
        (0 + (startTag id).length) = sep :: (out ++ sep :: endTagWith id 0) := by
      rw [Nat.zero_add, List.drop_left]
    have hEF : endTagWith id 0 = endTagPre id ++ ('0' :: '>' :: '>' :: []) := by
      unfold endTagWith
      rw [List.append_assoc]
      exact congrArg (endTagPre id ++ ·) (by decide)
    have hB : findAt (endTagPre id)
        (sep :: (out ++ sep :: endTagWith id 0)) = some (out.length + 2) := by
      rw [hEF]
      exact roundTripRest hsepTag hout
    have hdropE : (sep :: (out ++ sep :: endTagWith id 0)).drop
        (out.length + 2) = endTagWith id 0 := by
      rw [show out.length + 2 = out.length + 1 + 1 from rfl,
        List.drop_succ_cons, List.drop_append_eq_append_drop,
        List.drop_eq_nil_of_le (Nat.le_succ _),
        show out.length + 1 - out.length = 1 by omega]
      simp
    have hC : readNat ((sep :: (out ++ sep :: endTagWith id 0)).drop
        (out.length + 2 + (endTagPre id).length)) = some 0 := by
      rw [← List.drop_drop, hdropE, hEF, List.drop_left]
      rfl
    have htake : (sep :: (out ++ sep :: endTagWith id 0)).take
        (out.length + 2) = sep :: (out ++ [sep]) := by
      rw [show out.length + 2 = out.length + 1 + 1 from rfl,
        List.take_succ_cons, List.take_append_eq_append_take,
        List.take_of_length_le (Nat.le_succ _),
        Nat.succ_sub (Nat.le_refl _), Nat.sub_self, List.take_succ_cons,
        List.take_zero]
    have hB2 : findAt (endTagPre id)
        ((startTag id ++ sep :: (out ++ sep :: endTagWith id 0)).drop
          (0 + (startTag id).length)) = some (out.length + 2) := by
      rw [hdropS]
      exact hB
    have hC2 : readNat (((startTag id ++ sep :: (out ++ sep :: endTagWith id 0)).drop
        (0 + (startTag id).length)).drop
          (out.length + 2 + (endTagPre id).length)) = some 0 := by
      rw [hdropS]
      exact hC
    have := parseCapture_eq hA hB2 hC2
    rw [this, hdropS, htake, trimChars_pad hsep hhead hlast]

/-- C1 witness: the end-to-end example of the design document — command id
`c1`, transcript `<<START:c1>> hi <<END:c1:0>>` — parses to found, output
`hi`, exit code 0. -/
theorem execute_marker_round_trip_witness :
    parseCapture ("<<START:c1>> hi <<END:c1:0>>".toList) ("c1".toList)
      = ⟨true, some ("hi".toList), some 0⟩ ∧
    exitToStatus 0 = CmdStatus.completed :=
  ⟨(execute_marker_round_trip Shell.bash ("c1".toList) ("echo hi; exit 0".toList)
      ("hi".toList) ' ' (by decide) (by decide) (by decide) (by decide)
      (by decide)).2.2.1,
    (execute_marker_round_trip Shell.bash ("c1".toList) ("echo hi; exit 0".toList)
      ("hi".toList) ' ' (by decide) (by decide) (by decide) (by decide)
      (by decide)).2.2.2⟩

/-- C2: with `noEnter = true` the `execute-command` handler dispatches with
effective raw mode `true` whatever `rawMode` was, answers with the raw-mode
response whose text states that status tracking is disabled, and never
answers with the trackable-command (result-resource subscription) response. -/
theorem execute_noEnter_forces_rawMode (paneId command commandId : Str)
    (rawMode : Bool) :
    (executeCommandTool paneId command commandId rawMode true).dispatchedRawMode
        = true ∧
    (∃ t, (executeCommandTool paneId command commandId rawMode true).outcome
        = ExecOutcome.raw t
      ∧ occurs ("Status tracking is disabled".toList) t = true) ∧
    (∀ t, (executeCommandTool paneId command commandId rawMode true).outcome
        ≠ ExecOutcome.trackable t) := by
  have hsplit :
      (".\n\nStatus tracking is disabled.\nUse \x27capture-pane\x27 with paneId \x27".toList : Str)
        = ".\n\n".toList ++ ("Status tracking is disabled".toList
            ++ ".\nUse \x27capture-pane\x27 with paneId \x27".toList) := by decide
  refine ⟨rfl, ⟨_, rfl, ?_⟩, fun t h => ExecOutcome.noConfusion h⟩
  rw [hsplit]
  simp only [List.append_assoc]
  exact occurs_append_left _ (occurs_append_left _ (occurs_self_append _ _))

/-- The record `checkCommandStatus` stores when the end marker was found. -/
def transitionedCommand (cmd : Command) (code : Nat) (out : Str) : Command :=
  { cmd with status := exitToStatus code, exitCode := some code, result := out }

/-- C2 witness: `noEnter = true` with `rawMode = false` still dispatches with
raw mode on. -/
theorem execute_noEnter_forces_rawMode_witness :
    (executeCommandTool ("%3".toList) ("btop".toList) ("c7".toList) false
        true).dispatchedRawMode = true :=
  (execute_noEnter_forces_rawMode ("%3".toList) ("btop".toList) ("c7".toList)
    false).1

/-- C3: a point lookup of the result resource and a `get-command-result` call
both run `checkCommandStatus` before rendering: when the capture parses to a
found end marker, the read transitions the pending command to its terminal
status as a side effect (registry updated) and both renderings are of the
freshly transitioned record. -/
theorem result_read_live_check (cap : Str → Str) (reg : Registry) (i : Str)
    (cmd : Command) (out : Str) (code : Nat)
    (hlook : lookupCmd reg i = some cmd)
    (hpend : cmd.status = CmdStatus.pending)
    (hraw : cmd.rawMode = false)
    (hparse : parseCapture (cap cmd.paneId) i = ⟨true, some out, some code⟩) :
    checkCommandStatus cap reg i
        = (some (transitionedCommand cmd code out),
          reg.map (fun c => if c.id == i then transitionedCommand cmd code out else c)) ∧
    getCommandResultTool cap reg i
        = (⟨renderCommand (transitionedCommand cmd code out), false⟩,
          reg.map (fun c => if c.id == i then transitionedCommand cmd code out else c)) ∧
    commandResultResource cap reg i
        = (renderCommand (transitionedCommand cmd code out),
          reg.map (fun c => if c.id == i then transitionedCommand cmd code out else c)) ∧
    ((transitionedCommand cmd code out).status = CmdStatus.completed ∨
      (transitionedCommand cmd code out).status = CmdStatus.error) := by
  have hchk : checkCommandStatus cap reg i
      = (some (transitionedCommand cmd code out),
        reg.map (fun c => if c.id == i then transitionedCommand cmd code out else c)) := by
    unfold checkCommandStatus
    rw [hlook]
    simp [hpend, hraw, hparse, transitionedCommand]
  refine ⟨hchk, ?_, ?_, ?_⟩
  · unfold getCommandResultTool
    rw [hchk]
  · unfold commandResultResource
    rw [hchk]
  · unfold transitionedCommand exitToStatus
    by_cases h0 : code = 0 <;> simp [h0]

/-- C3 witness: one pending command `c1` on pane `%3`; reading the result
resource transitions it to `completed` and renders the fresh record. -/
theorem result_read_live_check_witness :
    checkCommandStatus
        (fun _ => "<<START:c1>> hi <<END:c1:0>>".toList)
        [⟨"c1".toList, "%3".toList, "echo hi; exit 0".toList, 5, CmdStatus.pending,
          none, [], false⟩]
        ("c1".toList)
      = (some (transitionedCommand
            ⟨"c1".toList, "%3".toList, "echo hi; exit 0".toList, 5,
              CmdStatus.pending, none, [], false⟩ 0 ("hi".toList)),
          [transitionedCommand
            ⟨"c1".toList, "%3".toList, "echo hi; exit 0".toList, 5,
              CmdStatus.pending, none, [], false⟩ 0 ("hi".toList)]) ∧
      (transitionedCommand
          ⟨"c1".toList, "%3".toList, "echo hi; exit 0".toList, 5,
            CmdStatus.pending, none, [], false⟩ 0 ("hi".toList)).status
        = CmdStatus.completed := by
  have h := result_read_live_check
    (fun _ => "<<START:c1>> hi <<END:c1:0>>".toList)
    [⟨"c1".toList, "%3".toList, "echo hi; exit 0".toList, 5, CmdStatus.pending,
      none, [], false⟩]
    ("c1".toList)
    ⟨"c1".toList, "%3".toList, "echo hi; exit 0".toList, 5, CmdStatus.pending,
      none, [], false⟩
    ("hi".toList) 0 (by decide) rfl rfl (by decide)
  exact ⟨by rw [h.1]; decide, by decide⟩

/-- C4: the result-resource listing first sweeps registry entries older than
10 minutes (measured from `startTime`, whatever the status), every listed
resource therefore comes from an entry at most 10 minutes old, and a status
check for a swept identifier afterwards answers not-found. -/
theorem result_list_sweeps_old (reg : Registry) (now : Nat) (cap : Str → Str)
    (c : Command)
    (hmem : c ∈ reg)
    (hold : 10 * 60 * 1000 < now - c.startTime)
    (hids : (reg.map Command.id).Nodup) :
    (∀ d ∈ (commandResultList reg now).2, now - d.startTime ≤ 10 * 60 * 1000) ∧
    (commandResultList reg now).1
        = (commandResultList reg now).2.map commandResourceEntry ∧
    lookupCmd (commandResultList reg now).2 c.id = none ∧
    checkCommandStatus cap (commandResultList reg now).2 c.id
        = (none, (commandResultList reg now).2) := by
  have hnone : lookupCmd (cleanupOldCommands reg now 10) c.id = none := by
    unfold lookupCmd
    cases hf : (cleanupOldCommands reg now 10).find? (fun d => d.id == c.id) with
    | none => rfl
    | some d =>
      exfalso
      have hd1 := List.find?_some hf
      have hd2 : d ∈ cleanupOldCommands reg now 10 := List.mem_of_find?_eq_some hf
      unfold cleanupOldCommands at hd2
      have hd3 : d ∈ reg := (List.mem_filter.mp hd2).1
      have hdp : now - d.startTime ≤ 10 * 60 * 1000 :=
        of_decide_eq_true (List.mem_filter.mp hd2).2
      have hde : d.id = c.id := by simpa using hd1
      have hdc : d = c := List.inj_on_of_nodup_map hids hd3 hmem hde
      rw [hdc] at hdp
      omega
  refine ⟨?_, rfl, hnone, ?_⟩
  · intro d hd
    have := (List.mem_filter.mp hd).2
    exact of_decide_eq_true this
  · unfold checkCommandStatus
    have h2 : (commandResultList reg now).2 = cleanupOldCommands reg now 10 := rfl
    rw [h2, hnone]

/-- C4 witness: of two registry entries, one 11 minutes old and one fresh,
the sweep keeps only the fresh one and the swept id is no longer found. -/
theorem result_list_sweeps_old_witness :
    lookupCmd (commandResultList
        [⟨"c1".toList, "%3".toList, "sleep 1".toList, 0, CmdStatus.pending,
            none, [], false⟩,
          ⟨"c2".toList, "%3".toList, "ls".toList, 660000, CmdStatus.completed,
            some 0, "ok".toList, false⟩]
        660001).2 ("c1".toList) = none := by
  have h := result_list_sweeps_old
    [⟨"c1".toList, "%3".toList, "sleep 1".toList, 0, CmdStatus.pending,
        none, [], false⟩,
      ⟨"c2".toList, "%3".toList, "ls".toList, 660000, CmdStatus.completed,
        some 0, "ok".toList, false⟩]
    660001 (fun _ => [])
    ⟨"c1".toList, "%3".toList, "sleep 1".toList, 0, CmdStatus.pending,
      none, [], false⟩
    (by decide) (by decide) (by decide)
  exact h.2.2.1

/-- C5: a status rendering for a registered command shows, while pending, the
command text plus either the advisory message or the still-executing notice
with the start time — and is independent of the exit-code field — and, once
terminal, shows status, exit code, command text and captured output. -/
theorem status_rendering_by_phase (c : Command) :
    (c.status = CmdStatus.pending →
      occurs c.command (renderCommand c) = true ∧
      (c.result ≠ [] → occurs c.result (renderCommand c) = true) ∧
      (c.result = [] →
        occurs ("Command still executing...\nStarted: ".toList)
          (renderCommand c) = true ∧
        occurs (isoTime c.startTime) (renderCommand c) = true) ∧
      (∀ ec, renderCommand { c with exitCode := ec } = renderCommand c)) ∧
    (c.status ≠ CmdStatus.pending →
      renderCommand c
        = "Status: ".toList ++ statusText c.status ++ "\nExit code: ".toList
          ++ exitCodeText c.exitCode ++ "\nCommand: ".toList ++ c.command
          ++ "\n\n--- Output ---\n".toList ++ c.result ∧
      occurs (statusText c.status) (renderCommand c) = true ∧
      occurs (exitCodeText c.exitCode) (renderCommand c) = true ∧
      occurs c.command (renderCommand c) = true ∧
      occurs c.result (renderCommand c) = true) := by
  constructor
  · intro hpend
    have hEc : ∀ ec, renderCommand { c with exitCode := ec } = renderCommand c := by
      intro ec
      cases c with
      | mk aid apane acmd ast astat aec ares araw =>
        have h2 : astat = CmdStatus.pending := hpend
        subst h2
        rfl
    by_cases hr : c.result = []
    · have e1 : renderCommand c
          = "Command still executing...\nStarted: ".toList ++ isoTime c.startTime
            ++ "\nCommand: ".toList ++ c.command := by
        unfold renderCommand
        rw [if_pos hpend, if_neg (by simp [hr])]
      refine ⟨?_, fun hx => absurd hr hx, fun _ => ⟨?_, ?_⟩, hEc⟩
      · rw [e1]
        simp only [List.append_assoc]
        exact occurs_append_left _ (occurs_append_left _
          (occurs_append_left _ (occurs_self _)))
      · rw [e1]
        simp only [List.append_assoc]
        exact occurs_self_append _ _
      · rw [e1]
        simp only [List.append_assoc]
        exact occurs_append_left _ (occurs_self_append _ _)
    · have e1 : renderCommand c
          = "Status: ".toList ++ statusText c.status ++ "\nCommand: ".toList
            ++ c.command ++ "\n\n--- Message ---\n".toList ++ c.result := by
        unfold renderCommand
        rw [if_pos hpend, if_pos hr]
      refine ⟨?_, fun _ => ?_, fun hx => absurd hx hr, hEc⟩
      · rw [e1]
        simp only [List.append_assoc]
        exact occurs_append_left _ (occurs_append_left _
          (occurs_append_left _ (occurs_self_append _ _)))
      · rw [e1]
        simp only [List.append_assoc]
        exact occurs_append_left _ (occurs_append_left _ (occurs_append_left _
          (occurs_append_left _ (occurs_append_left _ (occurs_self _)))))
  · intro hterm
    have e1 : renderCommand c
        = "Status: ".toList ++ statusText c.status ++ "\nExit code: ".toList
          ++ exitCodeText c.exitCode ++ "\nCommand: ".toList ++ c.command
          ++ "\n\n--- Output ---\n".toList ++ c.result := by
      unfold renderCommand
      rw [if_neg hterm]
    refine ⟨e1, ?_, ?_, ?_, ?_⟩
    · rw [e1]
      simp only [List.append_assoc]
      exact occurs_append_left _ (occurs_self_append _ _)
    · rw [e1]
      simp only [List.append_assoc]
      exact occurs_append_left _ (occurs_append_left _
        (occurs_append_left _ (occurs_self_append _ _)))
    · rw [e1]
      simp only [List.append_assoc]
      exact occurs_append_left _ (occurs_append_left _ (occurs_append_left _
        (occurs_append_left _ (occurs_append_left _ (occurs_self_append _ _)))))
    · rw [e1]
      simp only [List.append_assoc]
      exact occurs_append_left _ (occurs_append_left _ (occurs_append_left _
        (occurs_append_left _ (occurs_append_left _ (occurs_append_left _
          (occurs_append_left _ (occurs_self _)))))))

/-- Sample registry entries used by the C5 witness. -/
def samplePendingCommand : Command :=
  ⟨"c1".toList, "%3".toList, "sleep 5".toList, 7, CmdStatus.pending, none,
    [], false⟩

def sampleDoneCommand : Command :=
  ⟨"c2".toList, "%3".toList, "ls".toList, 7, CmdStatus.completed, some 0,
    "files".toList, false⟩

/-- C5 witness: the pending rendering carries the command text and the
still-executing notice, the terminal rendering equals the full template. -/
theorem status_rendering_by_phase_witness :
    occurs (samplePendingCommand.command) (renderCommand samplePendingCommand)
        = true ∧
    occurs ("Command still executing...\nStarted: ".toList)
        (renderCommand samplePendingCommand) = true ∧
    renderCommand sampleDoneCommand
      = "Status: ".toList ++ statusText sampleDoneCommand.status
        ++ "\nExit code: ".toList ++ exitCodeText sampleDoneCommand.exitCode
        ++ "\nCommand: ".toList ++ sampleDoneCommand.command
        ++ "\n\n--- Output ---\n".toList ++ sampleDoneCommand.result :=
  ⟨((status_rendering_by_phase samplePendingCommand).1 rfl).1,
    (((status_rendering_by_phase samplePendingCommand).1 rfl).2.2.1 rfl).1,
    ((status_rendering_by_phase sampleDoneCommand).2 (by decide)).1⟩

/-- C6: a status request (tool call or resource read) for an identifier the
registry has no record of yields the ordinary negative rendering
`Command not found: {id}` — both handlers are total and return this response
rather than raising. -/
theorem status_not_found_is_normal (cap : Str → Str) (reg : Registry)
    (i : Str)
    (h : lookupCmd reg i = none) :
    getCommandResultTool cap reg i
        = (⟨"Command not found: ".toList ++ i, true⟩, reg) ∧
    commandResultResource cap reg i
        = ("Command not found: ".toList ++ i, reg) := by
  unfold getCommandResultTool commandResultResource checkCommandStatus
  rw [h]
  exact ⟨rfl, rfl⟩

/-- C6 witness: an empty registry answers both requests for id `c9` with the
not-found rendering. -/
theorem status_not_found_is_normal_witness :
    getCommandResultTool (fun _ => []) [] ("c9".toList)
        = (⟨"Command not found: ".toList ++ "c9".toList, true⟩, []) ∧
    commandResultResource (fun _ => []) [] ("c9".toList)
        = ("Command not found: ".toList ++ "c9".toList, []) :=
  status_not_found_is_normal (fun _ => []) [] ("c9".toList) rfl

/-- C7: the pane-content resource read always captures a 200-line window
with colors disabled — it depends only on that slice of the capture port,
for every pane parameter, and returns that capture when non-empty. -/
theorem pane_read_fixed_window (cap1 cap2 : Str → Nat → Bool → Str)
    (p : UriParam)
    (h : ∀ pid, cap1 pid 200 false = cap2 pid 200 false)
    (h2 : cap1 (paneIdOf p) 200 false ≠ []) :
    paneContentResource cap1 p = paneContentResource cap2 p ∧
    paneContentResource cap1 p = cap1 (paneIdOf p) 200 false := by
  constructor
  · unfold paneContentResource
    rw [h (paneIdOf p)]
  · unfold paneContentResource
    rw [if_neg h2]

/-- Capture-port samples for the C7 witness: the first returns text only when
colors are off, the second always returns the plain text. -/
def sampleCaptureA : Str → Nat → Bool → Str :=
  fun _ _ colors => if colors then [] else "line one".toList

def sampleCaptureB : Str → Nat → Bool → Str :=
  fun _ _ _ => "line one".toList

/-- C7 witness: both capture ports agree on the 200-line colorless slice, so
the resource read renders the same 200-line colorless capture. -/
theorem pane_read_fixed_window_witness :
    paneContentResource sampleCaptureA (UriParam.one ("%1".toList))
        = paneContentResource sampleCaptureB (UriParam.one ("%1".toList)) ∧
    paneContentResource sampleCaptureA (UriParam.one ("%1".toList))
        = sampleCaptureA (paneIdOf (UriParam.one ("%1".toList))) 200 false :=
  pane_read_fixed_window sampleCaptureA sampleCaptureB
    (UriParam.one ("%1".toList)) (fun _ => rfl) (by decide)

/- ### Worktree lemmas -/

theorem ensure_found (st : GitRepoState) (o : EnsureWorktreeOptions)
    (e : WorktreeInfo)
    (hname : ¬ trimChars o.branchName = [])
    (hbase : ¬ (!o.createBranch && o.baseRef.isSome) = true)
    (hfind : st.worktrees.find?
        (fun x => normalizePath x.path == candidateWorktreePath st.repoRoot o)
        = some e) :
    ensureWorktree st o
      = ⟨Except.ok
          { repoPath := st.repoRoot
            worktreePath := candidateWorktreePath st.repoRoot o
            branch := e.branch.getD o.branchName
            created := false
            existingWorktree := some e },
        st, false⟩ := by
  unfold ensureWorktree
  rw [if_neg hname, if_neg hbase]
  dsimp only
  rw [hfind]

theorem ensure_second (st2 : GitRepoState) (o2 : EnsureWorktreeOptions)
    (r2 : EnsureWorktreeResult) (st3 : GitRepoState) (badd : Bool)
    (hok : ensureWorktree st2 o2 = ⟨Except.ok r2, st3, badd⟩)
    (hcr : r2.created = true) :
    ensureWorktree st3 o2
      = ⟨Except.ok
          { repoPath := st3.repoRoot
            worktreePath := candidateWorktreePath st3.repoRoot o2
            branch := o2.branchName
            created := false
            existingWorktree := some
              { path := candidateWorktreePath st3.repoRoot o2
                branch := some o2.branchName } },
        st3, false⟩ := by
  unfold ensureWorktree at hok
  split at hok
  · exact absurd (congrArg EnsureStep.outcome hok) (by simp)
  · split at hok
    · exact absurd (congrArg EnsureStep.outcome hok) (by simp)
    · rename_i h1 h2
      dsimp only at hok
      split at hok
      · rename_i e2 hf
        simp only [EnsureStep.mk.injEq, Except.ok.injEq] at hok
        rw [← hok.1] at hcr
        simp at hcr
      · rename_i hf
        have hmain : applyWorktreeAdd st2 (candidateWorktreePath st2.repoRoot o2)
            o2.branchName = st3 := by
          split at hok
          · split at hok
            · exact absurd (congrArg EnsureStep.outcome hok) (by simp)
            · exact (EnsureStep.mk.injEq _ _ _ _ _ _).mp hok |>.2.1
          · exact (EnsureStep.mk.injEq _ _ _ _ _ _).mp hok |>.2.1
        rw [← hmain]
        unfold ensureWorktree
        rw [if_neg h1, if_neg h2]
        dsimp only [applyWorktreeAdd]
        rw [List.find?_append, hf]
        simp [normalizePath]

/-- C8: `ensureWorktree` is idempotent at the worktree-path level: with valid
inputs, when the listing already reports a worktree at the resolved candidate
path the call returns `created := false` with that worktree's info, leaves the
repository unchanged and runs no `git worktree add`; and after any successful
creation, a second call with identical options returns `created := false`. -/
theorem ensure_worktree_path_idempotent (st : GitRepoState)
    (o : EnsureWorktreeOptions) (e : WorktreeInfo)
    (hname : ¬ trimChars o.branchName = [])
    (hbase : ¬ (!o.createBranch && o.baseRef.isSome) = true)
    (hfind : st.worktrees.find?
        (fun x => normalizePath x.path == candidateWorktreePath st.repoRoot o)
        = some e) :
    ensureWorktree st o
      = ⟨Except.ok
          { repoPath := st.repoRoot
            worktreePath := candidateWorktreePath st.repoRoot o
            branch := e.branch.getD o.branchName
            created := false
            existingWorktree := some e },
        st, false⟩ ∧
    (∀ st2 o2 r2 st3 badd,
      ensureWorktree st2 o2 = ⟨Except.ok r2, st3, badd⟩ →
      r2.created = true →
      ensureWorktree st3 o2
        = ⟨Except.ok
            { repoPath := st3.repoRoot
              worktreePath := candidateWorktreePath st3.repoRoot o2
              branch := o2.branchName
              created := false
              existingWorktree := some
                { path := candidateWorktreePath st3.repoRoot o2
                  branch := some o2.branchName } },
          st3, false⟩) :=
  ⟨ensure_found st o e hname hbase hfind,
    fun st2 o2 r2 st3 badd hok hcr => ensure_second st2 o2 r2 st3 badd hok hcr⟩

/-- Concrete repository for the C8/C9 witnesses: toplevel `/repo`, one
worktree at the default candidate path of branch `feature`. -/
def sampleRepoState : GitRepoState :=
  ⟨"/repo".toList,
    [{ path := ("/repo/../feature").toList, branch := some ("feature".toList) }]⟩

def sampleEnsureOptions : EnsureWorktreeOptions :=
  { repoPath := "/repo".toList, branchName := "feature".toList }

/-- C8 witness: asking for branch `feature` again reuses the listed worktree,
with `created := false`, the state unchanged and no `git worktree add` run. -/
theorem ensure_worktree_path_idempotent_witness :
    ensureWorktree sampleRepoState sampleEnsureOptions
      = ⟨Except.ok
          { repoPath := sampleRepoState.repoRoot
            worktreePath :=
              candidateWorktreePath sampleRepoState.repoRoot sampleEnsureOptions
            branch := ("feature".toList)
            created := false
            existingWorktree := some
              { path := ("/repo/../feature").toList
                branch := some ("feature".toList) } },
        sampleRepoState, false⟩ :=
  (ensure_worktree_path_idempotent sampleRepoState sampleEnsureOptions
      { path := ("/repo/../feature").toList, branch := some ("feature".toList) }
      (by decide) (by decide) (by decide)).1

/-- C9: `ensureWorktree` validates before mutating: a blank `branchName`
fails with `branchName is required`; a `baseRef` without `createBranch` fails
with an error; a branch already checked out at a different path without
`force` fails with the checked-out-elsewhere error — in each case the state
is unchanged and no `git worktree add` runs. -/
theorem ensure_worktree_validations (st : GitRepoState)
    (o : EnsureWorktreeOptions) (b : WorktreeInfo) :
    (trimChars o.branchName = [] →
      ensureWorktree st o
        = ⟨Except.error ("branchName is required".toList), st, false⟩) ∧
    ((!o.createBranch && o.baseRef.isSome) = true →
      ∃ m, ensureWorktree st o = ⟨Except.error m, st, false⟩) ∧
    (¬ trimChars o.branchName = [] →
      ¬ (!o.createBranch && o.baseRef.isSome) = true →
      st.worktrees.find?
          (fun x => normalizePath x.path == candidateWorktreePath st.repoRoot o)
        = none →
      st.worktrees.find? (fun x => x.branch == some o.branchName) = some b →
      (normalizePath b.path != candidateWorktreePath st.repoRoot o && !o.force)
        = true →
      ensureWorktree st o
        = ⟨Except.error ("Branch ".toList ++ o.branchName
            ++ " is already checked out at ".toList ++ b.path
            ++ ". Use force=true to reuse the branch or choose a different branch name.".toList),
          st, false⟩) := by
  refine ⟨?_, ?_, ?_⟩
  · intro h
    unfold ensureWorktree
    rw [if_pos h]
  · intro h
    by_cases h1 : trimChars o.branchName = []
    · exact ⟨"branchName is required".toList, by unfold ensureWorktree; rw [if_pos h1]⟩
    · refine ⟨"baseRef can only be used when createBranch is true".toList, ?_⟩
      unfold ensureWorktree
      rw [if_neg h1, if_pos h]
  · intro h1 h2 hfp hfb hguard
    unfold ensureWorktree
    rw [if_neg h1, if_neg h2]
    dsimp only
    rw [hfp, hfb]
    dsimp only
    rw [if_pos hguard]

/-- C9 witness: asking to put branch `feature` (already checked out at
`/repo/../feature`) at a different path without `force` is refused and the
state is unchanged. -/
theorem ensure_worktree_validations_witness :
    ensureWorktree sampleRepoState
        { repoPath := "/repo".toList, branchName := "feature".toList
          worktreePath := some ("/elsewhere".toList) }
      = ⟨Except.error ("Branch ".toList ++ "feature".toList
          ++ " is already checked out at ".toList ++ "/repo/../feature".toList
          ++ ". Use force=true to reuse the branch or choose a different branch name.".toList),
        sampleRepoState, false⟩ :=
  (ensure_worktree_validations sampleRepoState
      { repoPath := "/repo".toList, branchName := "feature".toList
        worktreePath := some ("/elsewhere".toList) }
      { path := ("/repo/../feature").toList, branch := some ("feature".toList) }).2.2
    (by decide) (by decide) (by decide) (by decide) (by decide)

/-- C10: environment names are validated against `^[A-Za-z_][A-Za-z0-9_]*$`
(a failing name raises before its export is sent), a valid name yields
exactly `export KEY="value"` with every double quote and backslash of the
value preceded by a backslash, and the `cd` command applies the same
quoting to the working directory. -/
theorem launch_env_quoting (key value path : Str) (env : List (Str × Str)) :
    (validEnvKey key = true →
      buildExportCommand key value
        = Except.ok ("export ".toList ++ key ++ "=\"".toList
            ++ escapeDq value ++ "\"".toList)) ∧
    (validEnvKey key = false →
      buildExportCommand key value
        = Except.error ("Invalid environment variable name: ".toList ++ key)) ∧
    escapeDq value
      = (value.map (fun c =>
          if c == '"' || c == '\\' then ['\\', c] else [c])).flatten ∧
    buildCdCommand path = "cd \"".toList ++ escapeDq path ++ "\"".toList ∧
    ((∃ kv ∈ env, validEnvKey kv.1 = false) →
      (sendEnvExports env).2.isSome = true) ∧
    (∀ cmd ∈ (sendEnvExports env).1, ∃ kv ∈ env,
      validEnvKey kv.1 = true ∧
      cmd = "export ".toList ++ kv.1 ++ "=\"".toList
        ++ escapeDq kv.2 ++ "\"".toList) := by
  refine ⟨?_, ?_, ?_, rfl, ?_, ?_⟩
  · intro h
    unfold buildExportCommand
    rw [if_pos h]
  · intro h
    unfold buildExportCommand
    rw [if_neg (by simp [h])]
  · induction value with
    | nil => rfl
    | cons c t ih =>
      by_cases hc : (c == '"' || c == '\\') = true
      · simp only [escapeDq, List.foldr_cons, List.map_cons, List.flatten_cons,
          hc, if_true]
        simp only [escapeDq] at ih
        rw [ih]
        rfl
      · simp only [escapeDq, List.foldr_cons, List.map_cons, List.flatten_cons,
          hc, if_false]
        simp only [escapeDq] at ih
        rw [ih]
        simp [Bool.not_eq_true] at hc
        rfl
  · induction env with
    | nil =>
      rintro ⟨kv, hmem, _⟩
      exact absurd hmem (List.not_mem_nil kv)
    | cons kv0 rest ih =>
      rintro ⟨kv, hmem, hbad⟩
      unfold sendEnvExports
      cases hbe : buildExportCommand kv0.1 kv0.2 with
      | error e => simp
      | ok cmd =>
        have hval : validEnvKey kv0.1 = true := by
          by_contra hneg
          unfold buildExportCommand at hbe
          rw [if_neg hneg] at hbe
          exact Except.noConfusion hbe
        have hkv : kv ∈ rest := by
          rcases List.mem_cons.mp hmem with h | h
          · rw [h] at hbad
            rw [hval] at hbad
            exact absurd hbad (by simp)
          · exact h
        have := ih ⟨kv, hkv, hbad⟩
        simpa using this
  · induction env with
    | nil =>
      intro cmd hc
      exact absurd hc (List.not_mem_nil cmd)
    | cons kv0 rest ih =>
      intro cmd hc
      unfold sendEnvExports at hc
      cases hbe : buildExportCommand kv0.1 kv0.2 with
      | error e =>
        rw [hbe] at hc
        dsimp only at hc
        exact absurd hc (List.not_mem_nil cmd)
      | ok cmd0 =>
        rw [hbe] at hc
        dsimp only at hc
        have hval : validEnvKey kv0.1 = true := by
          by_contra hneg
          unfold buildExportCommand at hbe
          rw [if_neg hneg] at hbe
          exact Except.noConfusion hbe
        have hcmd0 : cmd0 = "export ".toList ++ kv0.1 ++ "=\"".toList
            ++ escapeDq kv0.2 ++ "\"".toList := by
          unfold buildExportCommand at hbe
          rw [if_pos hval] at hbe
          exact (Except.ok.injEq _ _ ).mp hbe.symm
        rcases List.mem_cons.mp hc with h | h
        · exact ⟨kv0, List.mem_cons_self _ _, hval, by rw [h, hcmd0]⟩
        · obtain ⟨kv, hkv, hv, he⟩ := ih _ h
          exact ⟨kv, List.mem_cons_of_mem _ hkv, hv, he⟩

/-- C10 witness: key `MY_VAR` with a value holding a quote and a backslash
exports with both escaped; key `1BAD` is rejected; the environment loop fails
on `1BAD` and only valid exports are ever sent. -/
theorem launch_env_quoting_witness :
    buildExportCommand ("MY_VAR".toList) ("a \"b\" \\ c".toList)
      = Except.ok ("export ".toList ++ "MY_VAR".toList ++ "=\"".toList
          ++ escapeDq ("a \"b\" \\ c".toList) ++ "\"".toList) ∧
    buildExportCommand ("1BAD".toList) ("x".toList)
      = Except.error ("Invalid environment variable name: ".toList
          ++ "1BAD".toList) ∧
    (sendEnvExports [(("MY_VAR".toList), ("1".toList)),
        (("1BAD".toList), ("x".toList))]).2.isSome = true :=
  ⟨(launch_env_quoting ("MY_VAR".toList) ("a \"b\" \\ c".toList)
      ("/tmp".toList) []).1 (by decide),
    (launch_env_quoting ("1BAD".toList) ("x".toList) ("/tmp".toList) []).2.1
      (by decide),
    (launch_env_quoting ("k".toList) ("v".toList) ("/tmp".toList)
        [(("MY_VAR".toList), ("1".toList)), (("1BAD".toList), ("x".toList))]).2.2.2.2.1
      (by decide)⟩

end TmuxMcp
